import Mathlib

/-!
Verification of the image-slideshow repository.

Backend model (src/server.ts): the filesystem is a tree of named nodes,
paths are strings with slash-separated components, and the express
endpoints are modelled as functions from a raw request path to a
response.  The two external decoders (image-size and exifreader) and the
file-modification clock are oracles passed as function arguments; an
oracle returning none models the library throwing.

Frontend model (public/slideshow.js): the Slideshow class is a state
structure; DOM access is dropped and the setInterval / clearInterval
environment is made explicit as a list of live schedule identifiers plus
a fresh-identifier counter.  Math.random is an oracle supplying one
natural number per loop step.

Roots handed to the server are assumed absolute (the deployment resolves
them before use), so path resolution is modelled for absolute paths.
-/

/- ===================== filesystem and paths ===================== -/

/-- A filesystem node: a regular file with its bytes, or a directory with
named entries. -/
inductive FsNode where
  | file (content : List Nat)
  | dir (entries : List (String × FsNode))

/-- Split a list of characters into slash-separated segments. -/
def splitSegs : List Char → List Char → List String
  | [], acc => [String.mk acc.reverse]
  | c :: rest, acc =>
    if c = '/' then String.mk acc.reverse :: splitSegs rest []
    else splitSegs rest (c :: acc)

/-- Normalisation stack for path segments: empty and dot segments vanish,
a dot-dot segment pops the previous one (and is dropped at the root,
as Node path normalisation does for absolute paths). -/
def normStack : List String → List String → List String
  | [], stack => stack.reverse
  | seg :: rest, stack =>
    if seg = "" ∨ seg = "." then normStack rest stack
    else if seg = ".." then normStack rest (stack.drop 1)
    else normStack rest (seg :: stack)

/-- Canonical segment list of a path string. -/
def pathSegs (p : String) : List String :=
  normStack (splitSegs p.toList []) []

/-- Join segments back into an absolute path string. -/
def joinSegsAbs : List String → String
  | [] => "/"
  | [s] => "/" ++ s
  | s :: rest => "/" ++ s ++ joinSegsAbs rest

/-- Node path resolution for an absolute path: collapse duplicate
slashes, dots and dot-dots. -/
def normalizeAbs (p : String) : String :=
  joinSegsAbs (pathSegs p)

/-- Node path.join of a root and a caller-supplied name: concatenate
with a slash, then normalise. -/
def pathJoin (a b : String) : String :=
  normalizeAbs (a ++ "/" ++ b)

/-- Walk a canonical segment list down a filesystem tree. -/
def findPath : List String → FsNode → Option FsNode
  | [], node => some node
  | seg :: rest, FsNode.dir entries =>
    match List.lookup seg entries with
    | some child => findPath rest child
    | none => none
  | _ :: _, FsNode.file _ => none

/-- Model of fs.existsSync: the path names some node, file or directory. -/
def existsSync (world : FsNode) (p : String) : Bool :=
  (findPath (pathSegs p) world).isSome

/-- The path names a regular file. -/
def isRegularFile (world : FsNode) (p : String) : Bool :=
  match findPath (pathSegs p) world with
  | some (FsNode.file _) => true
  | _ => false

/-- JavaScript String.startsWith, a raw character-list test. -/
def jsStartsWith (s pre : String) : Bool :=
  pre.toList.isPrefixOf s.toList

/-- The resolved path is the root itself or strictly below it; this is
what the spec means by remaining inside the root folder. -/
def insideRoot (root p : String) : Bool :=
  p == root || (root ++ "/").toList.isPrefixOf p.toList

/- ===================== extension classification ===================== -/

/-- Supported image extensions (server.ts line 8). -/
def IMAGE_EXTENSIONS : List String :=
  [".jpg", ".jpeg", ".png", ".gif", ".webp", ".bmp", ".svg"]

/-- Basename: the characters after the final slash. -/
def basenameChars : List Char → List Char → List Char
  | [], acc => acc.reverse
  | '/' :: rest, _ => basenameChars rest []
  | c :: rest, acc => basenameChars rest (c :: acc)

/-- Split a reversed character list at the first dot, returning the
reversed tail after the dot and the reversed characters before it. -/
def revExtSplit : List Char → List Char → Option (List Char × List Char)
  | [], _ => none
  | '.' :: rest, acc => some (acc, rest)
  | c :: rest, acc => revExtSplit rest (c :: acc)

/-- Model of Node path.extname: the suffix of the basename from its last
dot, empty when there is no dot, when the dot leads the basename, or for
the special dot-dot name. -/
def extname (filename : String) : String :=
  let bs := basenameChars filename.toList []
  if bs = ['.', '.'] then ""
  else
    match revExtSplit bs.reverse [] with
    | some (ext, before) =>
      if before.isEmpty then "" else String.mk ('.' :: ext)
    | none => ""

/-- ASCII lower-casing of a string, as toLowerCase does on these inputs. -/
def lowerStr (s : String) : String :=
  String.mk (s.toList.map Char.toLower)

/-- isImageFile (server.ts lines 10-13): the lower-cased extension is in
the supported list. -/
def isImageFile (filename : String) : Bool :=
  IMAGE_EXTENSIONS.contains (lowerStr (extname filename))

/- ===================== directory listing ===================== -/

/-- Model of fs.readdirSync: the entry names of a directory, or failure
when the path is missing or not a directory. -/
def readdirSync (world : FsNode) (folder : String) : Option (List String) :=
  match findPath (pathSegs folder) world with
  | some (FsNode.dir entries) => some (entries.map Prod.fst)
  | _ => none

/-- getImageFiles (server.ts lines 15-23): list the folder, keep the
image-named entries, and degrade to an empty list on any read error.
Note the source reads a single directory level. -/
def getImageFiles (world : FsNode) (folder : String) : List String :=
  match readdirSync world folder with
  | some files => files.filter (fun f => isImageFile f)
  | none => []

/-- Modelled from the spec: listImages is described as recursively
walking the root and emitting, for each regular file whose name
satisfies the supported-image test, a root-relative path with
slash-separated components.  No function in src implements this walk;
this definition follows the spec wording and the repository's own test
expectations for getImageFiles. -/
def listImagesSpec : List (String × FsNode) → List String
  | [] => []
  | (name, FsNode.file _) :: rest =>
    (if isImageFile name then [name] else []) ++ listImagesSpec rest
  | (name, FsNode.dir sub) :: rest =>
    (listImagesSpec sub).map (fun p => name ++ "/" ++ p) ++ listImagesSpec rest

/-- World for the listing claim: a root folder holding one subdirectory
with one supported image inside. -/
def worldNested : FsNode :=
  FsNode.dir [("photos", FsNode.dir [("sub", FsNode.dir [("b.png", FsNode.file [1, 2])])])]

/-- The claim id C1 states that getImageFiles walks the root recursively
and returns root-relative slash-joined paths.  On a root whose only
image sits in a subdirectory, the source function returns the empty
list, while the walk the spec (and the repository's own test suite)
describes returns the nested reference. -/
theorem C1_getImageFiles_not_recursive :
    getImageFiles worldNested "/photos" = []
      ∧ listImagesSpec [("sub", FsNode.dir [("b.png", FsNode.file [1, 2])])] = ["sub/b.png"]
      ∧ ([] : List String) ≠ ["sub/b.png"] := by
  refine ⟨by decide, by simp only [listImagesSpec]; decide, by decide⟩

/- ===================== percent decoding and routing ===================== -/

/-- Hexadecimal value of a character, if any. -/
def hexVal (c : Char) : Option Nat :=
  if '0' ≤ c ∧ c ≤ '9' then some (c.toNat - '0'.toNat)
  else if 'a' ≤ c ∧ c ≤ 'f' then some (c.toNat - 'a'.toNat + 10)
  else if 'A' ≤ c ∧ c ≤ 'F' then some (c.toNat - 'A'.toNat + 10)
  else none

/-- Percent-decoding of a character sequence, as the transport applies to
a captured route parameter. -/
def pctDecode : List Char → List Char
  | '%' :: a :: b :: rest =>
    match hexVal a, hexVal b with
    | some x, some y => Char.ofNat (16 * x + y) :: pctDecode rest
    | _, _ => '%' :: pctDecode (a :: b :: rest)
  | c :: rest => c :: pctDecode rest
  | [] => []

/-- Percent-decoding of a string. -/
def pctDecodeStr (s : String) : String :=
  String.mk (pctDecode s.toList)

/-- Drop a literal leading character sequence, or fail. -/
def dropLeading : List Char → List Char → Option (List Char)
  | [], s => some s
  | p :: ps, c :: cs => if p = c then dropLeading ps cs else none
  | _ :: _, [] => none

/-- Remove one optional trailing slash, as the route pattern tolerates. -/
def stripTrailingSlash (l : List Char) : List Char :=
  match l.getLast? with
  | some '/' => l.dropLast
  | _ => l

/-- Route match for GET /images/:filename.  The parameter is one raw
path segment: it may not contain a literal slash.  Returns the raw
(still percent-encoded) captured segment. -/
def matchImagesRoute (rawPath : String) : Option String :=
  match dropLeading "/images/".toList rawPath.toList with
  | some rest =>
    let seg := stripTrailingSlash rest
    if seg.isEmpty || seg.contains '/' then none else some (String.mk seg)
  | none => none

/-- Route match for GET /api/images/:filename/metadata, with the same
single-segment parameter rule. -/
def matchMetadataRoute (rawPath : String) : Option String :=
  match dropLeading "/api/images/".toList rawPath.toList with
  | some rest =>
    let rest := stripTrailingSlash rest
    match dropLeading "/metadata".toList.reverse rest.reverse with
    | some midRev =>
      let mid := midRev.reverse
      if mid.isEmpty || mid.contains '/' then none else some (String.mk mid)
    | none => none
  | none => none

/- ===================== metadata model ===================== -/

/-- Result of the external image-size decoder; absent fields model
undefined ones. -/
structure Dims where
  width : Option Nat
  height : Option Nat
  type : Option String
deriving DecidableEq

/-- The exif tag group read by the external reader: one optional
description per tag the server consults. -/
structure ExifSection where
  make : Option String
  model : Option String
  lensModel : Option String
  dateTimeOriginal : Option String
  dateTime : Option String
  fNumber : Option String
  apertureValue : Option String
  exposureTime : Option String
  isoSpeedRatings : Option String
  focalLength : Option String
  flash : Option String
  software : Option String
  artist : Option String
  copyright : Option String
deriving DecidableEq

/-- The gps tag group; coordinates are modelled as integers, standing in
for the decoded numbers (only their presence and zero-ness matter to the
server code). -/
structure GpsTags where
  latitude : Option Int
  longitude : Option Int
deriving DecidableEq

/-- Expanded tag bundle returned by the external reader. -/
structure ExifTags where
  exif : Option ExifSection
  gps : Option GpsTags
deriving DecidableEq

/-- Gps pair in the response. -/
structure GpsOut where
  latitude : Int
  longitude : Int
deriving DecidableEq

/-- The optional exif bundle of the metadata response.  The iso field
holds the parseInt result; its inner none stands for a stored NaN, which
still counts as a present key. -/
structure ExifOut where
  camera : Option String
  lens : Option String
  dateTaken : Option String
  aperture : Option String
  shutterSpeed : Option String
  iso : Option (Option Int)
  focalLength : Option String
  flash : Option String
  gps : Option GpsOut
  software : Option String
  artist : Option String
  copyright : Option String
deriving DecidableEq

/-- ImageMetadata (server.ts lines 25-49). -/
structure ImageMetadata where
  filename : String
  width : Option Nat
  height : Option Nat
  size : Nat
  modified : String
  type : Option String
  exif : Option ExifOut
deriving DecidableEq

/-- JavaScript truthiness filter for an optional string: the empty
string is falsy. -/
def tstr : Option String → Option String
  | some s => if s = "" then none else some s
  | none => none

/-- JavaScript or-chain of two possibly-absent strings. -/
def orTruthy (a b : Option String) : Option String :=
  match tstr a with
  | some s => some s
  | none => tstr b

/-- JavaScript truthiness for an optional number: zero is falsy
(width or-null and height or-null in the source). -/
def natTruthy : Option Nat → Option Nat
  | some 0 => none
  | some n => some n
  | none => none

/-- JavaScript truthiness for an optional integer (gps coordinates). -/
def intTruthy : Option Int → Option Int
  | some v => if v = 0 then none else some v
  | none => none

/-- Accumulate decimal digits; none when no digit was consumed. -/
def parseDigits : List Char → Option Nat → Option Nat
  | c :: rest, acc =>
    if '0' ≤ c ∧ c ≤ '9' then
      parseDigits rest (some (acc.getD 0 * 10 + (c.toNat - '0'.toNat)))
    else acc
  | [], acc => acc

/-- Model of parseInt with radix ten: optional sign then leading digits,
none standing for NaN. -/
def jsParseInt (s : String) : Option Int :=
  match s.toList.dropWhile (fun c => c = ' ') with
  | '-' :: rest => (parseDigits rest none).map (fun n => -(n : Int))
  | '+' :: rest => (parseDigits rest none).map (fun n => (n : Int))
  | l => (parseDigits l none).map (fun n => (n : Int))

/-- The assembled bundle carries at least one key. -/
def ExifOut.hasAny (e : ExifOut) : Bool :=
  e.camera.isSome || e.lens.isSome || e.dateTaken.isSome || e.aperture.isSome ||
  e.shutterSpeed.isSome || e.iso.isSome || e.focalLength.isSome || e.flash.isSome ||
  e.gps.isSome || e.software.isSome || e.artist.isSome || e.copyright.isSome

/-- Exif assembly (server.ts lines 72-155): each response field is set
only when its source descriptions are truthy, and the bundle is kept
only when some field was set. -/
def buildExif (tags : ExifTags) : Option ExifOut :=
  let ex := tags.exif
  let mk := tstr (ex.bind ExifSection.make)
  let md := tstr (ex.bind ExifSection.model)
  let camera :=
    match mk, md with
    | some a, some b => some (a ++ " " ++ b)
    | some a, none => some a
    | none, some b => some b
    | none, none => none
  let lens := tstr (ex.bind ExifSection.lensModel)
  let dateTaken := orTruthy (ex.bind ExifSection.dateTimeOriginal) (ex.bind ExifSection.dateTime)
  let aperture :=
    (orTruthy (ex.bind ExifSection.fNumber) (ex.bind ExifSection.apertureValue)).map
      (fun v => "f/" ++ v)
  let shutterSpeed := (tstr (ex.bind ExifSection.exposureTime)).map (fun v => v ++ "s")
  let iso := (tstr (ex.bind ExifSection.isoSpeedRatings)).map (fun s => jsParseInt s)
  let focalLength := (tstr (ex.bind ExifSection.focalLength)).map (fun v => v ++ "mm")
  let flash := tstr (ex.bind ExifSection.flash)
  let gps :=
    match tags.gps with
    | some g =>
      match intTruthy g.latitude, intTruthy g.longitude with
      | some la, some lo => some { latitude := la, longitude := lo : GpsOut }
      | _, _ => none
    | none => none
  let software := tstr (ex.bind ExifSection.software)
  let artist := tstr (ex.bind ExifSection.artist)
  let copyright := tstr (ex.bind ExifSection.copyright)
  let e : ExifOut :=
    { camera := camera, lens := lens, dateTaken := dateTaken, aperture := aperture,
      shutterSpeed := shutterSpeed, iso := iso, focalLength := focalLength, flash := flash,
      gps := gps, software := software, artist := artist, copyright := copyright }
  if e.hasAny then some e else none

/-- getImageMetadata (server.ts lines 51-172).  Stat and read succeed
exactly when the path names a regular file (reading a directory throws,
as does statting a missing path); decoder and exif failures are
swallowed into absent fields. -/
def getImageMetadata (world : FsNode) (sizeOfFn : List Nat → Option Dims)
    (exifLoadFn : List Nat → Option ExifTags) (mtimeFn : String → String)
    (filepath filename : String) : Option ImageMetadata :=
  match findPath (pathSegs filepath) world with
  | some (FsNode.file content) =>
    let dims := sizeOfFn content
    let width := match dims with | some d => natTruthy d.width | none => none
    let height := match dims with | some d => natTruthy d.height | none => none
    let typeTag := match dims with | some d => tstr d.type | none => none
    let exif := match exifLoadFn content with | some tags => buildExif tags | none => none
    some { filename := filename, width := width, height := height,
           size := content.length, modified := mtimeFn filepath, type := typeTag,
           exif := exif }
  | _ => none

/- ===================== endpoints ===================== -/

/-- Responses the modelled endpoints can produce.  routeMiss is the
framework default when no route pattern matches; serverError is the
error-handler outcome of sendFile on a non-file node. -/
inductive Response where
  | okBytes (body : List Nat)
  | okList (names : List String)
  | okJson (m : ImageMetadata)
  | forbidden
  | notFound
  | metadataError
  | serverError
  | routeMiss
deriving DecidableEq

/-- Model of res.sendFile on a resolved absolute path: the raw bytes for
a regular file, otherwise the error handler fires. -/
def sendFile (world : FsNode) (resolvedPath : String) : Response :=
  match findPath (pathSegs resolvedPath) world with
  | some (FsNode.file c) => Response.okBytes c
  | _ => Response.serverError

/-- GET /images/:filename handler (server.ts lines 187-205), after the
route captured and percent-decoded the parameter. -/
def serveImageHandler (world : FsNode) (imagesFolder filename : String) : Response :=
  let filepath := pathJoin imagesFolder filename
  let resolvedPath := normalizeAbs filepath
  let resolvedFolder := normalizeAbs imagesFolder
  if !(jsStartsWith resolvedPath resolvedFolder) then Response.forbidden
  else if existsSync world filepath && isImageFile filename then sendFile world resolvedPath
  else Response.notFound

/-- GET /api/images/:filename/metadata handler (server.ts lines
208-232). -/
def metadataHandler (world : FsNode) (sizeOfFn : List Nat → Option Dims)
    (exifLoadFn : List Nat → Option ExifTags) (mtimeFn : String → String)
    (imagesFolder filename : String) : Response :=
  let filepath := pathJoin imagesFolder filename
  let resolvedPath := normalizeAbs filepath
  let resolvedFolder := normalizeAbs imagesFolder
  if !(jsStartsWith resolvedPath resolvedFolder) then Response.forbidden
  else if !(existsSync world filepath) || !(isImageFile filename) then Response.notFound
  else
    match getImageMetadata world sizeOfFn exifLoadFn mtimeFn resolvedPath filename with
    | some m => Response.okJson m
    | none => Response.metadataError

/-- The application's routing for the three endpoints (createApp): the
exact list route, then the byte route, then the metadata route; any
other path falls to the framework default. -/
def handleRequest (world : FsNode) (sizeOfFn : List Nat → Option Dims)
    (exifLoadFn : List Nat → Option ExifTags) (mtimeFn : String → String)
    (imagesFolder rawPath : String) : Response :=
  if rawPath = "/api/images" then Response.okList (getImageFiles world imagesFolder)
  else
    match matchImagesRoute rawPath with
    | some seg => serveImageHandler world imagesFolder (pctDecodeStr seg)
    | none =>
      match matchMetadataRoute rawPath with
      | some seg => metadataHandler world sizeOfFn exifLoadFn mtimeFn imagesFolder (pctDecodeStr seg)
      | none => Response.routeMiss

/- ===================== traversal-guard claim ===================== -/

/-- World for the traversal claim: the images root together with a
sibling folder whose name extends the root's name as a string. -/
def worldSibling : FsNode :=
  FsNode.dir [("data", FsNode.dir
    [("images", FsNode.dir [("a.jpg", FsNode.file [7])]),
     ("images2", FsNode.dir [("secret.jpg", FsNode.file [9, 9])])])]

/-- The claim id C2 states that every requested name resolving outside
the root draws a 403 before any filesystem existence check.  The
encoded name dot-dot slash images2 slash secret.jpg resolves to the
sibling folder, outside the root, yet the raw string test accepts it and
the server serves the sibling file, so the filesystem was consulted and
no 403 was produced. -/
theorem C2_guard_bypass_sibling :
    insideRoot "/data/images" (normalizeAbs (pathJoin "/data/images" "../images2/secret.jpg")) = false
      ∧ handleRequest worldSibling (fun _ => none) (fun _ => none) (fun _ => "") "/data/images"
          "/images/..%2Fimages2%2Fsecret.jpg" = Response.okBytes [9, 9]
      ∧ Response.okBytes [9, 9] ≠ Response.forbidden := by
  refine ⟨by decide, by decide, by decide⟩

/- ===================== subdirectory route claim ===================== -/

/-- The claim id C5 states that a supported image in a subdirectory is
served with its exact bytes for a request naming it with slash-separated
segments.  The route parameter only spans one raw segment, so the
literal request misses every route and receives the framework default
404, while only the percent-encoded spelling reaches the handler. -/
theorem C5_literal_subpath_misses_route :
    handleRequest worldNested (fun _ => none) (fun _ => none) (fun _ => "") "/photos"
        "/images/sub/b.png" = Response.routeMiss
      ∧ handleRequest worldNested (fun _ => none) (fun _ => none) (fun _ => "") "/photos"
          "/images/sub%2Fb.png" = Response.okBytes [1, 2]
      ∧ Response.routeMiss ≠ Response.okBytes [1, 2] := by
  refine ⟨by decide, by decide, by decide⟩

/- ===================== byte-serving claim ===================== -/

/-- World for the byte-serving claim: the root holds a directory whose
name carries an image extension. -/
def worldDirJpg : FsNode :=
  FsNode.dir [("pics", FsNode.dir [("d.jpg", FsNode.dir [("inner.txt", FsNode.file [3])])])]

/-- The claim id C3 states the byte-serving operation returns 404
whenever the path does not exist as a regular file.  A directory named
like an image exists, passes the extension test, and is handed to
sendFile, which fails into the error handler instead of producing the
claimed 404. -/
theorem C3_directory_not_notFound :
    isRegularFile worldDirJpg "/pics/d.jpg" = false
      ∧ serveImageHandler worldDirJpg "/pics" "d.jpg" = Response.serverError
      ∧ Response.serverError ≠ Response.notFound := by
  refine ⟨by decide, by decide, by decide⟩

/- ===================== normalisation sanity lemmas ===================== -/

/-- A canonical segment: nonempty and not a dot form. -/
def goodSeg (s : String) : Prop := s ≠ "" ∧ s ≠ "." ∧ s ≠ ".."

theorem splitSegs_no_slash (a : List Char) :
    ∀ acc, '/' ∉ a → splitSegs a acc = [String.mk (acc.reverse ++ a)] := by
  induction a with
  | nil => intro acc _; simp [splitSegs]
  | cons c rest ih =>
    intro acc h
    have hc : ¬ c = '/' := fun e => h (e ▸ List.mem_cons_self c rest)
    have hrest : '/' ∉ rest := fun hm => h (List.mem_cons_of_mem _ hm)
    simp [splitSegs, hc, ih (c :: acc) hrest]

theorem splitSegs_append_slash (a : List Char) :
    ∀ acc b, '/' ∉ a →
      splitSegs (a ++ '/' :: b) acc = String.mk (acc.reverse ++ a) :: splitSegs b [] := by
  induction a with
  | nil => intro acc b _; simp [splitSegs]
  | cons c rest ih =>
    intro acc b h
    have hc : ¬ c = '/' := fun e => h (e ▸ List.mem_cons_self c rest)
    have hrest : '/' ∉ rest := fun hm => h (List.mem_cons_of_mem _ hm)
    simp [splitSegs, hc, ih (c :: acc) b hrest]

theorem mem_splitSegs_no_slash (l : List Char) :
    ∀ acc s, '/' ∉ acc → s ∈ splitSegs l acc → '/' ∉ s.toList := by
  induction l with
  | nil =>
    intro acc s hacc hs
    simp [splitSegs] at hs
    subst hs
    intro hm
    exact hacc (List.mem_reverse.mp hm)
  | cons c rest ih =>
    intro acc s hacc hs
    by_cases hc : c = '/'
    · subst hc
      simp [splitSegs] at hs
      rcases hs with hs | hs
      · subst hs
        intro hm
        exact hacc (List.mem_reverse.mp hm)
      · exact ih [] s (by simp) hs
    · simp [splitSegs, hc] at hs
      refine ih (c :: acc) s ?_ hs
      intro hm
      rcases List.mem_cons.mp hm with h | h
      · exact hc h.symm
      · exact hacc h

theorem mem_normStack (segs : List String) :
    ∀ stack x, x ∈ normStack segs stack → x ∈ stack ∨ (x ∈ segs ∧ goodSeg x) := by
  induction segs with
  | nil =>
    intro stack x hx
    left
    simp only [normStack] at hx
    exact List.mem_reverse.mp hx
  | cons seg rest ih =>
    intro stack x hx
    by_cases h1 : seg = "" ∨ seg = "."
    · simp only [normStack, if_pos h1] at hx
      rcases ih stack x hx with h | h
      · exact Or.inl h
      · exact Or.inr ⟨List.mem_cons_of_mem _ h.1, h.2⟩
    · by_cases h2 : seg = ".."
      · simp only [normStack, if_neg h1, if_pos h2] at hx
        rcases ih (stack.drop 1) x hx with h | h
        · exact Or.inl (List.mem_of_mem_drop h)
        · exact Or.inr ⟨List.mem_cons_of_mem _ h.1, h.2⟩
      · simp only [normStack, if_neg h1, if_neg h2] at hx
        rcases ih (seg :: stack) x hx with h | h
        · rcases List.mem_cons.mp h with h | h
          · subst h
            refine Or.inr ⟨List.mem_cons_self _ _, ?_, ?_, h2⟩
            · intro e; exact h1 (Or.inl e)
            · intro e; exact h1 (Or.inr e)
          · exact Or.inl h
        · exact Or.inr ⟨List.mem_cons_of_mem _ h.1, h.2⟩

theorem normStack_all_good (segs : List String) :
    ∀ stack, (∀ s ∈ segs, goodSeg s) → normStack segs stack = stack.reverse ++ segs := by
  induction segs with
  | nil => intro stack _; simp [normStack]
  | cons seg rest ih =>
    intro stack hg
    have hgseg := hg seg (List.mem_cons_self _ _)
    have h1 : ¬(seg = "" ∨ seg = ".") := by
      rintro (e | e)
      · exact hgseg.1 e
      · exact hgseg.2.1 e
    have h2 : ¬ seg = ".." := hgseg.2.2
    simp only [normStack, if_neg h1, if_neg h2]
    rw [ih (seg :: stack) (fun s hs => hg s (List.mem_cons_of_mem _ hs))]
    simp

theorem joinSegsAbs_head (segs : List String) :
    ∃ t, (joinSegsAbs segs).toList = '/' :: t := by
  cases segs with
  | nil => exact ⟨[], rfl⟩
  | cons s rest =>
    cases rest with
    | nil => exact ⟨s.toList, rfl⟩
    | cons s2 r2 => exact ⟨(s ++ joinSegsAbs (s2 :: r2)).toList, rfl⟩

theorem splitSegs_joinSegsAbs (segs : List String) :
    segs ≠ [] → (∀ s ∈ segs, '/' ∉ s.toList) →
      splitSegs (joinSegsAbs segs).toList [] = "" :: segs := by
  induction segs with
  | nil => intro hne _; exact absurd rfl hne
  | cons s rest ih =>
    intro _ hs
    have hs0 : '/' ∉ s.toList := hs s (List.mem_cons_self _ _)
    cases rest with
    | nil =>
      show splitSegs ('/' :: s.toList) [] = ["", s]
      have h1 : splitSegs ('/' :: s.toList) [] = "" :: splitSegs s.toList [] := by
        simp [splitSegs]
      rw [h1, splitSegs_no_slash s.toList [] hs0]
      rfl
    | cons s2 r2 =>
      obtain ⟨t, ht⟩ := joinSegsAbs_head (s2 :: r2)
      have hexp : (joinSegsAbs (s :: s2 :: r2)).toList
          = '/' :: (s.toList ++ (joinSegsAbs (s2 :: r2)).toList) := rfl
      have hih := ih (by simp) (fun x hx => hs x (List.mem_cons_of_mem _ hx))
      rw [ht] at hih
      have hih2 : splitSegs t [] = s2 :: r2 := by
        have : splitSegs ('/' :: t) [] = "" :: splitSegs t [] := by simp [splitSegs]
        rw [this] at hih
        exact (List.cons.injEq _ _ _ _ ▸ hih).2
      rw [hexp, ht]
      have h1 : splitSegs ('/' :: (s.toList ++ '/' :: t)) []
          = "" :: splitSegs (s.toList ++ '/' :: t) [] := by simp [splitSegs]
      rw [h1, splitSegs_append_slash s.toList [] t hs0, hih2]
      simp

theorem pathSegs_normalizeAbs (p : String) : pathSegs (normalizeAbs p) = pathSegs p := by
  have hgood : ∀ s ∈ pathSegs p, goodSeg s := by
    intro s hs
    rcases mem_normStack _ _ _ hs with h | h
    · simp at h
    · exact h.2
  have hnos : ∀ s ∈ pathSegs p, '/' ∉ s.toList := by
    intro s hs
    rcases mem_normStack _ _ _ hs with h | h
    · simp at h
    · exact mem_splitSegs_no_slash _ [] s (by simp) h.1
  by_cases hne : pathSegs p = []
  · show pathSegs (joinSegsAbs (pathSegs p)) = pathSegs p
    rw [hne]
    decide
  · show normStack (splitSegs (joinSegsAbs (pathSegs p)).toList []) [] = pathSegs p
    rw [splitSegs_joinSegsAbs (pathSegs p) hne hnos]
    have hskip : normStack ("" :: pathSegs p) [] = normStack (pathSegs p) [] := by
      simp [normStack]
    rw [hskip, normStack_all_good (pathSegs p) [] hgood]
    simp

/-- Guard-passing shape of the byte-serving handler. -/
theorem serveImageHandler_guard_true (world : FsNode) (root filename : String)
    (hguard : jsStartsWith (normalizeAbs (pathJoin root filename)) (normalizeAbs root) = true) :
    serveImageHandler world root filename =
      if existsSync world (pathJoin root filename) && isImageFile filename
      then sendFile world (normalizeAbs (pathJoin root filename))
      else Response.notFound := by
  simp only [serveImageHandler, hguard, Bool.not_true]
  rfl

/-- Amended claim C3: once the traversal guard has passed, the handler
answers 404 exactly when the joined path names no filesystem node at all
or the name fails the image test; when the path names a regular file
with a supported name, the exact stored bytes come back. -/
theorem C3_serveImage_amended (world : FsNode) (root filename : String)
    (hguard : jsStartsWith (normalizeAbs (pathJoin root filename)) (normalizeAbs root) = true) :
    (serveImageHandler world root filename = Response.notFound
        ↔ ¬(existsSync world (pathJoin root filename) = true ∧ isImageFile filename = true))
      ∧ (∀ c, findPath (pathSegs (pathJoin root filename)) world = some (FsNode.file c) →
          isImageFile filename = true →
          serveImageHandler world root filename = Response.okBytes c) := by
  have hsegs : pathSegs (normalizeAbs (pathJoin root filename)) = pathSegs (pathJoin root filename) :=
    pathSegs_normalizeAbs _
  rw [serveImageHandler_guard_true world root filename hguard]
  constructor
  · by_cases hcond : (existsSync world (pathJoin root filename) && isImageFile filename) = true
    · rw [if_pos hcond]
      rw [Bool.and_eq_true] at hcond
      constructor
      · intro hsf
        exfalso
        cases hf : findPath (pathSegs (normalizeAbs (pathJoin root filename))) world with
        | none => simp [sendFile, hf] at hsf
        | some node => cases node <;> simp [sendFile, hf] at hsf
      · intro hneg
        exact absurd hcond hneg
    · rw [if_neg hcond]
      rw [Bool.and_eq_true] at hcond
      simp [hcond]
  · intro c hfile himg
    have hex : existsSync world (pathJoin root filename) = true := by
      unfold existsSync
      rw [hfile]
      rfl
    rw [if_pos (by rw [hex, himg]; rfl)]
    unfold sendFile
    rw [hsegs, hfile]

/-- Witness for the amended C3 claim at a concrete world. -/
theorem C3_serveImage_amended_witness :
    jsStartsWith (normalizeAbs (pathJoin "/photos" "sub/b.png")) (normalizeAbs "/photos") = true
      ∧ ((serveImageHandler worldNested "/photos" "sub/b.png" = Response.notFound
          ↔ ¬(existsSync worldNested (pathJoin "/photos" "sub/b.png") = true
                ∧ isImageFile "sub/b.png" = true))
        ∧ (∀ c, findPath (pathSegs (pathJoin "/photos" "sub/b.png")) worldNested
              = some (FsNode.file c) →
            isImageFile "sub/b.png" = true →
            serveImageHandler worldNested "/photos" "sub/b.png" = Response.okBytes c)) :=
  ⟨by decide, C3_serveImage_amended worldNested "/photos" "sub/b.png" (by decide)⟩

/- ===================== metadata claim ===================== -/

/-- Failing size decoder oracle. -/
def noDims : List Nat → Option Dims := fun _ => none

/-- Failing exif reader oracle. -/
def noTags : List Nat → Option ExifTags := fun _ => none

/-- Constant modification-time oracle. -/
def noMtime : String → String := fun _ => ""

/-- Claim C4: metadata computation fails (mapping to 500) exactly when
the stat or read of the path fails, that is when the path is not a
regular file; for a readable regular file a metadata value is produced
for every behaviour of the two external decoders, a failing dimension
decoder only blanks width, height and type, and a failing exif reader
only drops the exif bundle; the endpoint answers 500 only when the
computation failed. -/
theorem C4_metadata_swallows_decoder_failures
    (world : FsNode) (sizeOfFn : List Nat → Option Dims)
    (exifLoadFn : List Nat → Option ExifTags) (mtimeFn : String → String)
    (filepath filename : String) :
    ((getImageMetadata world sizeOfFn exifLoadFn mtimeFn filepath filename).isNone
        ↔ isRegularFile world filepath = false)
      ∧ (∀ content, findPath (pathSegs filepath) world = some (FsNode.file content) →
          ∃ m, getImageMetadata world sizeOfFn exifLoadFn mtimeFn filepath filename = some m
            ∧ (sizeOfFn content = none → m.width = none ∧ m.height = none ∧ m.type = none)
            ∧ (exifLoadFn content = none → m.exif = none))
      ∧ (∀ root, metadataHandler world sizeOfFn exifLoadFn mtimeFn root filename
            = Response.metadataError →
          getImageMetadata world sizeOfFn exifLoadFn mtimeFn
            (normalizeAbs (pathJoin root filename)) filename = none) := by
  refine ⟨?_, ?_, ?_⟩
  · cases hf : findPath (pathSegs filepath) world with
    | none => simp [getImageMetadata, isRegularFile, hf]
    | some node => cases node <;> simp [getImageMetadata, isRegularFile, hf]
  · intro content hf
    simp only [getImageMetadata, hf]
    refine ⟨_, rfl, ?_, ?_⟩
    · intro hso
      simp [hso]
    · intro hex
      simp [hex]
  · intro root h
    simp only [metadataHandler] at h
    split at h
    · exact Response.noConfusion h
    · split at h
      · exact Response.noConfusion h
      · split at h
        · exact Response.noConfusion h
        · assumption

/-- Witness for claim C4 at a concrete world with both decoders
failing. -/
theorem C4_metadata_witness :
    findPath (pathSegs "/photos/sub/b.png") worldNested = some (FsNode.file [1, 2])
      ∧ (∃ m, getImageMetadata worldNested noDims noTags noMtime "/photos/sub/b.png" "sub/b.png"
            = some m
          ∧ (noDims [1, 2] = none → m.width = none ∧ m.height = none ∧ m.type = none)
          ∧ (noTags [1, 2] = none → m.exif = none)) :=
  ⟨rfl, (C4_metadata_swallows_decoder_failures worldNested noDims noTags noMtime
    "/photos/sub/b.png" "sub/b.png").2.1 [1, 2] rfl⟩

/- ===================== slideshow controller model ===================== -/

/-- Controller state (slideshow.js constructor) together with the timer
environment: the canonical and display lists, current position, play
and shuffle flags, the stored interval (none standing for NaN), the
owned schedule identifier, the identifiers of all live schedules, and a
fresh-identifier counter for setInterval. -/
structure SlideState where
  images : List String
  displayImages : List String
  currentIndex : Nat
  interval : Option Int
  timer : Option Nat
  isPlaying : Bool
  isShuffled : Bool
  live : List Nat
  nextTimerId : Nat

/-- Swap of two positions, as the destructuring assignment performs:
position i receives the old j value, then position j the old i value. -/
def listSwap (l : List String) (i j : Nat) : List String :=
  match l[i]?, l[j]? with
  | some a, some b => (l.set i b).set j a
  | _, _ => l

/-- The shuffle loop of updateDisplayOrder, counting the index down to
one; the oracle r supplies the random draw of each step and the modulus
keeps it in the same range as the floor of random times index-plus-one. -/
def fyLoop (r : Nat → Nat) : Nat → List String → List String
  | 0, l => l
  | i + 1, l => fyLoop r i (listSwap l (i + 1) (r (i + 1) % (i + 2)))

/-- The in-place shuffle of a fresh copy of the images array. -/
def fyShuffle (r : Nat → Nat) (l : List String) : List String :=
  fyLoop r (l.length - 1) l

/-- JavaScript Array.indexOf: position of the first match, if any. -/
def jsIndexOf (l : List String) (a : String) : Option Nat :=
  match l with
  | [] => none
  | x :: rest => if x = a then some 0 else (jsIndexOf rest a).map (fun i => i + 1)

/-- JavaScript remainder, whose sign follows the dividend. -/
def jsRem (a n : Int) : Int := if a < 0 then -((-a) % n) else a % n

/-- The double-remainder wrap of showImage. -/
def jsWrap (idx : Int) (len : Nat) : Int := jsRem (jsRem idx len + len) len

namespace Slideshow

/-- State after the constructor ran and the image list arrived
(loadImages): playing and shuffled by default, no schedule yet. -/
def initState (imgs : List String) : SlideState :=
  { images := imgs, displayImages := [], currentIndex := 0, interval := some 30000,
    timer := none, isPlaying := true, isShuffled := true, live := [], nextTimerId := 0 }

/-- updateDisplayOrder (slideshow.js lines 77-88): shuffle a copy of the
canonical list, or copy it unchanged. -/
def updateDisplayOrder (r : Nat → Nat) (s : SlideState) : SlideState :=
  if s.isShuffled then { s with displayImages := fyShuffle r s.images }
  else { s with displayImages := s.images }

/-- startTimer (lines 162-166): creates a fresh schedule and remembers
it, without cancelling any previous one. -/
def startTimer (s : SlideState) : SlideState :=
  { s with timer := some s.nextTimerId
           live := s.live ++ [s.nextTimerId]
           nextTimerId := s.nextTimerId + 1 }

/-- stopTimer (lines 168-173): cancels the owned schedule, if any. -/
def stopTimer (s : SlideState) : SlideState :=
  match s.timer with
  | some t => { s with live := s.live.erase t, timer := none }
  | none => s

/-- restartTimer (lines 175-178). -/
def restartTimer (s : SlideState) : SlideState := startTimer (stopTimer s)

/-- showImage (lines 113-146), reduced to its state effect: wrap the
requested index into range; an empty display order returns at once. -/
def showImage (idx : Int) (s : SlideState) : SlideState :=
  if s.displayImages.length = 0 then s
  else { s with currentIndex := (jsWrap idx s.displayImages.length).toNat }

/-- next (lines 148-153). -/
def next (s : SlideState) : SlideState :=
  let s1 := showImage ((s.currentIndex : Int) + 1) s
  if s1.isPlaying then restartTimer s1 else s1

/-- prev (lines 155-160). -/
def prev (s : SlideState) : SlideState :=
  let s1 := showImage ((s.currentIndex : Int) - 1) s
  if s1.isPlaying then restartTimer s1 else s1

/-- toggleShuffle (lines 94-102): flip the mode, recompute the order,
then look the previously current element up in the new order, falling
back to position zero. -/
def toggleShuffle (r : Nat → Nat) (s : SlideState) : SlideState :=
  let s1 := { s with isShuffled := !s.isShuffled }
  let currentImage := s1.displayImages[s1.currentIndex]?
  let s2 := updateDisplayOrder r s1
  let newIndex :=
    match currentImage with
    | some img => jsIndexOf s2.displayImages img
    | none => none
  { s2 with currentIndex := newIndex.getD 0 }

/-- togglePlayPause (lines 180-189). -/
def togglePlayPause (s : SlideState) : SlideState :=
  let s1 := { s with isPlaying := !s.isPlaying }
  if s1.isPlaying then startTimer s1 else stopTimer s1

/-- changeInterval (lines 191-196). -/
def changeInterval (value : String) (s : SlideState) : SlideState :=
  let s1 := { s with interval := jsParseInt value }
  if s1.isPlaying then restartTimer s1 else s1

/-- start (lines 104-111), reduced to its state effect: capture the
checkbox, recompute the order, show position zero, start the timer. -/
def start (checkbox : Bool) (r : Nat → Nat) (s : SlideState) : SlideState :=
  let s1 := { s with isShuffled := checkbox }
  let s2 := updateDisplayOrder r s1
  let s3 := showImage 0 s2
  startTimer s3

end Slideshow

/-- One user-visible controller operation; start carries the checkbox
state and a randomness oracle for its shuffle. -/
inductive SlideOp where
  | start (checkbox : Bool) (r : Nat → Nat)
  | next
  | prev
  | togglePlayPause
  | changeInterval (value : String)

/-- Whether the operation is the start button. -/
def SlideOp.isStart : SlideOp → Bool
  | SlideOp.start _ _ => true
  | _ => false

/-- Apply one operation to the controller state. -/
def applyOp : SlideOp → SlideState → SlideState
  | SlideOp.start c r, s => Slideshow.start c r s
  | SlideOp.next, s => Slideshow.next s
  | SlideOp.prev, s => Slideshow.prev s
  | SlideOp.togglePlayPause, s => Slideshow.togglePlayPause s
  | SlideOp.changeInterval v, s => Slideshow.changeInterval v s

/-- Apply a sequence of operations from the left. -/
def applyOps (ops : List SlideOp) (s : SlideState) : SlideState :=
  ops.foldl (fun st op => applyOp op st) s

/-- Constant randomness oracle for concrete runs. -/
def rzero : Nat → Nat := fun _ => 0

/- ===================== display order claims ===================== -/

theorem cons_set_perm (xs : List String) :
    ∀ j a b, xs[j]? = some b → (b :: xs.set j a).Perm (a :: xs) := by
  induction xs with
  | nil => intro j a b h; simp at h
  | cons y ys ih =>
    intro j a b h
    cases j with
    | zero =>
      simp only [List.getElem?_cons_zero, Option.some.injEq] at h
      subst h
      simp only [List.set_cons_zero]
      exact List.Perm.swap a y ys
    | succ j =>
      simp only [List.getElem?_cons_succ] at h
      simp only [List.set_cons_succ]
      refine List.Perm.trans (List.Perm.swap y b _) ?_
      refine List.Perm.trans (List.Perm.cons y (ih j a b h)) ?_
      exact List.Perm.swap a y ys

theorem listSwap_perm (l : List String) : ∀ i j, (listSwap l i j).Perm l := by
  induction l with
  | nil => intro i j; simp [listSwap]
  | cons x xs ih =>
    intro i j
    cases i with
    | zero =>
      cases j with
      | zero => simp [listSwap]
      | succ j =>
        cases hb : xs[j]? with
        | none => simp [listSwap, hb]
        | some b =>
          simp only [listSwap, List.getElem?_cons_zero, List.getElem?_cons_succ, hb,
            List.set_cons_zero, List.set_cons_succ]
          exact cons_set_perm xs j x b hb
    | succ i =>
      cases j with
      | zero =>
        cases ha : xs[i]? with
        | none => simp [listSwap, ha]
        | some a =>
          simp only [listSwap, List.getElem?_cons_succ, List.getElem?_cons_zero, ha,
            List.set_cons_succ, List.set_cons_zero]
          exact cons_set_perm xs i x a ha
      | succ j =>
        cases ha : xs[i]? with
        | none => simp [listSwap, ha]
        | some a =>
          cases hb : xs[j]? with
          | none => simp [listSwap, ha, hb]
          | some b =>
            simp only [listSwap, List.getElem?_cons_succ, ha, hb, List.set_cons_succ]
            have hx := ih i j
            simp only [listSwap, ha, hb] at hx
            exact hx.cons x

theorem fyLoop_perm (r : Nat → Nat) : ∀ (i : Nat) (l : List String), (fyLoop r i l).Perm l := by
  intro i
  induction i with
  | zero => intro l; exact List.Perm.refl l
  | succ i ih =>
    intro l
    exact (ih _).trans (listSwap_perm l (i + 1) (r (i + 1) % (i + 2)))

theorem fyShuffle_perm (r : Nat → Nat) (l : List String) : (fyShuffle r l).Perm l :=
  fyLoop_perm r (l.length - 1) l

/-- Claim C6: after every updateDisplayOrder call the display order is a
permutation of the canonical list, in both modes, and in sequential mode
it equals the canonical list exactly. -/
theorem C6_updateDisplayOrder_perm (s : SlideState) (r : Nat → Nat) :
    ((Slideshow.updateDisplayOrder r s).displayImages).Perm s.images
      ∧ (s.isShuffled = false →
          (Slideshow.updateDisplayOrder r s).displayImages = s.images) := by
  unfold Slideshow.updateDisplayOrder
  by_cases h : s.isShuffled = true
  · rw [if_pos h]
    refine ⟨fyShuffle_perm r s.images, ?_⟩
    intro hf
    rw [hf] at h
    exact absurd h (by simp)
  · rw [if_neg h]
    exact ⟨List.Perm.refl _, fun _ => rfl⟩

/-- Concrete controller state in sequential mode, used by witnesses. -/
def wSeq : SlideState :=
  { images := ["a.jpg", "b.png"], displayImages := ["a.jpg", "b.png"], currentIndex := 1,
    interval := some 30000, timer := none, isPlaying := true, isShuffled := false,
    live := [], nextTimerId := 0 }

/-- Witness for claim C6 in sequential mode, with the inner hypothesis
discharged. -/
theorem C6_updateDisplayOrder_perm_witness :
    ((Slideshow.updateDisplayOrder rzero wSeq).displayImages).Perm wSeq.images
      ∧ (Slideshow.updateDisplayOrder rzero wSeq).displayImages = wSeq.images :=
  ⟨(C6_updateDisplayOrder_perm wSeq rzero).1, (C6_updateDisplayOrder_perm wSeq rzero).2 rfl⟩

theorem jsIndexOf_get (a : String) :
    ∀ (l : List String) (i : Nat), jsIndexOf l a = some i → l[i]? = some a := by
  intro l
  induction l with
  | nil => intro i h; simp [jsIndexOf] at h
  | cons x rest ih =>
    intro i h
    by_cases hx : x = a
    · simp only [jsIndexOf, if_pos hx, Option.some.injEq] at h
      subst h
      simp [hx]
    · simp only [jsIndexOf, if_neg hx, Option.map_eq_some'] at h
      obtain ⟨i', hi', rfl⟩ := h
      simpa using ih i' hi'

theorem jsIndexOf_none (a : String) :
    ∀ (l : List String), jsIndexOf l a = none → a ∉ l := by
  intro l
  induction l with
  | nil => intro _; simp
  | cons x rest ih =>
    intro h
    by_cases hx : x = a
    · simp [jsIndexOf, hx] at h
    · simp only [jsIndexOf, if_neg hx, Option.map_eq_none'] at h
      intro hm
      rcases List.mem_cons.mp hm with e | hm2
      · exact hx e.symm
      · exact ih h hm2

/-- Claim C7: toggleShuffle preserves the element that was current: when
that element occurs in the recomputed order, the new current position
holds exactly it; when it cannot be located, the position falls back to
zero. -/
theorem C7_toggleShuffle_preserves (s : SlideState) (r : Nat → Nat) (img : String)
    (h : s.displayImages[s.currentIndex]? = some img) :
    ((img ∈ (Slideshow.toggleShuffle r s).displayImages →
        (Slideshow.toggleShuffle r s).displayImages[(Slideshow.toggleShuffle r s).currentIndex]?
          = some img)
      ∧ (img ∉ (Slideshow.toggleShuffle r s).displayImages →
        (Slideshow.toggleShuffle r s).currentIndex = 0)) := by
  unfold Slideshow.toggleShuffle
  simp only [h]
  cases hidx : jsIndexOf
      (Slideshow.updateDisplayOrder r { s with isShuffled := !s.isShuffled }).displayImages img with
  | none =>
    constructor
    · intro hmem
      exact absurd hmem (jsIndexOf_none img _ hidx)
    · intro _
      rfl
  | some i =>
    constructor
    · intro _
      simpa using jsIndexOf_get img _ i hidx
    · intro hmem
      exfalso
      have := jsIndexOf_get img _ i hidx
      exact hmem (List.getElem?_mem this)

/-- Witness for claim C7 at a concrete state. -/
theorem C7_toggleShuffle_preserves_witness :
    wSeq.displayImages[wSeq.currentIndex]? = some "b.png"
      ∧ ((("b.png" : String) ∈ (Slideshow.toggleShuffle rzero wSeq).displayImages →
          (Slideshow.toggleShuffle rzero wSeq).displayImages[(Slideshow.toggleShuffle
            rzero wSeq).currentIndex]? = some "b.png")
        ∧ (("b.png" : String) ∉ (Slideshow.toggleShuffle rzero wSeq).displayImages →
          (Slideshow.toggleShuffle rzero wSeq).currentIndex = 0)) :=
  ⟨by decide, C7_toggleShuffle_preserves wSeq rzero "b.png" (by decide)⟩

/- ===================== navigation claims ===================== -/

theorem jsRem_bounds (a n : Int) (hn : 0 < n) : -n < jsRem a n ∧ jsRem a n < n := by
  unfold jsRem
  by_cases ha : a < 0
  · rw [if_pos ha]
    have h1 : 0 ≤ (-a) % n := Int.emod_nonneg _ (by omega)
    have h2 : (-a) % n < n := Int.emod_lt_of_pos _ hn
    constructor <;> linarith
  · rw [if_neg ha]
    have h1 : 0 ≤ a % n := Int.emod_nonneg _ (by omega)
    have h2 : a % n < n := Int.emod_lt_of_pos _ hn
    constructor <;> linarith

theorem jsRem_shift_bounds (x n : Int) (hn : 0 < n) (hlo : -n < x) (_hhi : x < n) :
    0 ≤ jsRem (x + n) n ∧ jsRem (x + n) n < n := by
  have hpos : ¬ (x + n < 0) := by omega
  unfold jsRem
  rw [if_neg hpos]
  exact ⟨Int.emod_nonneg _ (by omega), Int.emod_lt_of_pos _ hn⟩

theorem jsWrap_bounds (idx : Int) (len : Nat) (h : 0 < len) :
    0 ≤ jsWrap idx len ∧ jsWrap idx len < len := by
  have hn : (0 : Int) < (len : Int) := by exact_mod_cast h
  have hb := jsRem_bounds idx len hn
  exact jsRem_shift_bounds _ _ hn hb.1 hb.2

theorem jsWrap_len_eq_zero (len : Nat) (h : 0 < len) :
    jsWrap (len : Int) len = 0 := by
  have hn : (0 : Int) < (len : Int) := by exact_mod_cast h
  unfold jsWrap jsRem
  rw [if_neg (by omega), Int.emod_self, if_neg (by omega), zero_add, Int.emod_self]

theorem jsWrap_neg_one (len : Nat) (h : 0 < len) :
    jsWrap (-1) len = (len : Int) - 1 := by
  have hn : (0 : Int) < (len : Int) := by exact_mod_cast h
  unfold jsWrap jsRem
  rw [if_pos (by omega : (-1 : Int) < 0)]
  by_cases h1 : (len : Int) = 1
  · rw [h1]
    decide
  · have h2 : (1 : Int) < (len : Int) := by omega
    rw [show (-(-1 : Int)) = 1 from rfl, Int.emod_eq_of_lt (by omega) h2]
    rw [if_neg (by omega)]
    rw [Int.emod_eq_of_lt (by omega) (by omega)]
    ring

theorem showImage_currentIndex_lt (s : SlideState) (h : 0 < s.displayImages.length)
    (idx : Int) :
    (Slideshow.showImage idx s).currentIndex < s.displayImages.length := by
  unfold Slideshow.showImage
  rw [if_neg (by omega)]
  have hb := jsWrap_bounds idx s.displayImages.length h
  simp only []
  omega

theorem restartTimer_currentIndex (s : SlideState) :
    (Slideshow.restartTimer s).currentIndex = s.currentIndex := by
  unfold Slideshow.restartTimer Slideshow.startTimer Slideshow.stopTimer
  cases hs : s.timer <;> rfl

theorem next_wraps_to_zero (s : SlideState) (h : 0 < s.displayImages.length)
    (hc : s.currentIndex = s.displayImages.length - 1) :
    (Slideshow.next s).currentIndex = 0 := by
  have hshow : (Slideshow.showImage ((s.currentIndex : Int) + 1) s).currentIndex = 0 := by
    unfold Slideshow.showImage
    rw [if_neg (by omega)]
    have hidx : ((s.currentIndex : Int) + 1) = (s.displayImages.length : Int) := by omega
    simp only [hidx, jsWrap_len_eq_zero s.displayImages.length h]
    rfl
  unfold Slideshow.next
  cases hp : (Slideshow.showImage ((s.currentIndex : Int) + 1) s).isPlaying
  · rw [if_neg (by simp [hp])]
    exact hshow
  · rw [if_pos (by simp [hp])]
    rw [restartTimer_currentIndex]
    exact hshow

theorem prev_wraps_to_last (s : SlideState) (h : 0 < s.displayImages.length)
    (hc : s.currentIndex = 0) :
    (Slideshow.prev s).currentIndex = s.displayImages.length - 1 := by
  have hshow : (Slideshow.showImage ((s.currentIndex : Int) - 1) s).currentIndex
      = s.displayImages.length - 1 := by
    unfold Slideshow.showImage
    rw [if_neg (by omega)]
    have hidx : ((s.currentIndex : Int) - 1) = -1 := by omega
    simp only [hidx, jsWrap_neg_one s.displayImages.length h]
    omega
  unfold Slideshow.prev
  cases hp : (Slideshow.showImage ((s.currentIndex : Int) - 1) s).isPlaying
  · rw [if_neg (by simp [hp])]
    exact hshow
  · rw [if_pos (by simp [hp])]
    rw [restartTimer_currentIndex]
    exact hshow

/-- Claim C8: with a non-empty display order, showImage keeps the
current position inside the range for every integer argument, next from
the last position lands on zero, and prev from zero lands on the last
position. -/
theorem C8_navigation_wraps (s : SlideState) (h : 0 < s.displayImages.length) :
    (∀ idx : Int, (Slideshow.showImage idx s).currentIndex < s.displayImages.length)
      ∧ (s.currentIndex = s.displayImages.length - 1 →
          (Slideshow.next s).currentIndex = 0)
      ∧ (s.currentIndex = 0 →
          (Slideshow.prev s).currentIndex = s.displayImages.length - 1) :=
  ⟨fun idx => showImage_currentIndex_lt s h idx,
   fun hc => next_wraps_to_zero s h hc,
   fun hc => prev_wraps_to_last s h hc⟩

/-- Witness for claim C8 at a concrete state. -/
theorem C8_navigation_wraps_witness :
    0 < wSeq.displayImages.length
      ∧ ((∀ idx : Int, (Slideshow.showImage idx wSeq).currentIndex
            < wSeq.displayImages.length)
        ∧ (wSeq.currentIndex = wSeq.displayImages.length - 1 →
            (Slideshow.next wSeq).currentIndex = 0)
        ∧ (wSeq.currentIndex = 0 →
            (Slideshow.prev wSeq).currentIndex = wSeq.displayImages.length - 1)) :=
  ⟨by decide, C8_navigation_wraps wSeq (by decide)⟩

/- ===================== playback timer claim ===================== -/

/-- The schedules a correctly-owned timer accounts for. -/
def timerList : Option Nat → List Nat
  | some t => [t]
  | none => []

/-- Timer ownership invariant: the live schedules are exactly the owned
one, and a paused controller owns none. -/
def TimerInv (s : SlideState) : Prop :=
  s.live = timerList s.timer ∧ (s.isPlaying = false → s.timer = none)

theorem timerInv_startTimer (s : SlideState) (_ht : s.timer = none) (hl : s.live = [])
    (hp : s.isPlaying = true) : TimerInv (Slideshow.startTimer s) := by
  unfold Slideshow.startTimer
  constructor
  · simp [hl, timerList]
  · intro hf
    simp only [] at hf
    rw [hp] at hf
    exact absurd hf (by simp)

theorem stopTimer_spec (s : SlideState) (hl : s.live = timerList s.timer) :
    (Slideshow.stopTimer s).timer = none ∧ (Slideshow.stopTimer s).live = []
      ∧ (Slideshow.stopTimer s).isPlaying = s.isPlaying
      ∧ (Slideshow.stopTimer s).nextTimerId = s.nextTimerId := by
  unfold Slideshow.stopTimer
  cases ht : s.timer with
  | none =>
    refine ⟨ht, ?_, rfl, rfl⟩
    rw [hl, ht]
    rfl
  | some t =>
    refine ⟨rfl, ?_, rfl, rfl⟩
    simp only []
    rw [hl, ht]
    simp [timerList]

theorem timerInv_restart (s : SlideState) (hl : s.live = timerList s.timer)
    (hp : s.isPlaying = true) : TimerInv (Slideshow.restartTimer s) := by
  obtain ⟨h1, h2, h3, _⟩ := stopTimer_spec s hl
  unfold Slideshow.restartTimer
  exact timerInv_startTimer _ h1 h2 (h3.trans hp)

theorem showImage_timer_fields (idx : Int) (s : SlideState) :
    (Slideshow.showImage idx s).timer = s.timer
      ∧ (Slideshow.showImage idx s).live = s.live
      ∧ (Slideshow.showImage idx s).isPlaying = s.isPlaying := by
  unfold Slideshow.showImage
  split <;> exact ⟨rfl, rfl, rfl⟩

theorem timerInv_next (s : SlideState) (h : TimerInv s) : TimerInv (Slideshow.next s) := by
  unfold Slideshow.next
  obtain ⟨ht, hlv, hpl⟩ := showImage_timer_fields ((s.currentIndex : Int) + 1) s
  have hinv : TimerInv (Slideshow.showImage ((s.currentIndex : Int) + 1) s) := by
    unfold TimerInv
    rw [ht, hlv, hpl]
    exact h
  cases hp : (Slideshow.showImage ((s.currentIndex : Int) + 1) s).isPlaying
  · rw [if_neg (by simp [hp])]
    exact hinv
  · rw [if_pos (by simp [hp])]
    exact timerInv_restart _ hinv.1 hp

theorem timerInv_prev (s : SlideState) (h : TimerInv s) : TimerInv (Slideshow.prev s) := by
  unfold Slideshow.prev
  obtain ⟨ht, hlv, hpl⟩ := showImage_timer_fields ((s.currentIndex : Int) - 1) s
  have hinv : TimerInv (Slideshow.showImage ((s.currentIndex : Int) - 1) s) := by
    unfold TimerInv
    rw [ht, hlv, hpl]
    exact h
  cases hp : (Slideshow.showImage ((s.currentIndex : Int) - 1) s).isPlaying
  · rw [if_neg (by simp [hp])]
    exact hinv
  · rw [if_pos (by simp [hp])]
    exact timerInv_restart _ hinv.1 hp

theorem timerInv_togglePlayPause (s : SlideState) (h : TimerInv s) :
    TimerInv (Slideshow.togglePlayPause s) := by
  unfold Slideshow.togglePlayPause
  cases hp : s.isPlaying
  · rw [if_pos (by simp [hp])]
    refine timerInv_startTimer _ (h.2 hp) ?_ (by simp [hp])
    rw [h.1, h.2 hp]
    rfl
  · rw [if_neg (by simp [hp])]
    have hs := stopTimer_spec { s with isPlaying := !true } h.1
    exact ⟨by rw [hs.2.1, hs.1]; rfl, fun _ => hs.1⟩

theorem timerInv_changeInterval (v : String) (s : SlideState) (h : TimerInv s) :
    TimerInv (Slideshow.changeInterval v s) := by
  unfold Slideshow.changeInterval
  cases hp : s.isPlaying
  · rw [if_neg (by simp [hp])]
    exact ⟨h.1, fun _ => h.2 hp⟩
  · rw [if_pos (by simp [hp])]
    exact timerInv_restart _ h.1 rfl

theorem updateDisplayOrder_timer_fields (r : Nat → Nat) (s : SlideState) :
    (Slideshow.updateDisplayOrder r s).timer = s.timer
      ∧ (Slideshow.updateDisplayOrder r s).live = s.live
      ∧ (Slideshow.updateDisplayOrder r s).isPlaying = s.isPlaying
      ∧ (Slideshow.updateDisplayOrder r s).nextTimerId = s.nextTimerId := by
  unfold Slideshow.updateDisplayOrder
  split <;> exact ⟨rfl, rfl, rfl, rfl⟩

theorem timerInv_start_of_clean (c : Bool) (r : Nat → Nat) (s : SlideState)
    (ht : s.timer = none) (hl : s.live = []) (hp : s.isPlaying = true) :
    TimerInv (Slideshow.start c r s) := by
  unfold Slideshow.start
  obtain ⟨u1, u2, u3, _⟩ := updateDisplayOrder_timer_fields r { s with isShuffled := c }
  obtain ⟨v1, v2, v3⟩ := showImage_timer_fields 0
    (Slideshow.updateDisplayOrder r { s with isShuffled := c })
  refine timerInv_startTimer _ ?_ ?_ ?_
  · rw [v1, u1]
    exact ht
  · rw [v2, u2]
    exact hl
  · rw [v3, u3]
    exact hp

theorem timerInv_applyOps (ops : List SlideOp) :
    ∀ s, (∀ op ∈ ops, op.isStart = false) → TimerInv s → TimerInv (applyOps ops s) := by
  induction ops with
  | nil => intro s _ hs; exact hs
  | cons op rest ih =>
    intro s hall hs
    have hop := hall op (List.mem_cons_self _ _)
    have hs2 : TimerInv (applyOp op s) := by
      cases op with
      | start c r => simp [SlideOp.isStart] at hop
      | next => exact timerInv_next s hs
      | prev => exact timerInv_prev s hs
      | togglePlayPause => exact timerInv_togglePlayPause s hs
      | changeInterval v => exact timerInv_changeInterval v s hs
    exact ih (applyOp op s) (fun o ho => hall o (List.mem_cons_of_mem _ ho)) hs2

/-- Amended claim C9: in every state reached from the freshly loaded
controller by one initial start followed by any sequence of next, prev,
togglePlayPause and changeInterval, at most one tick schedule is
outstanding. -/
theorem C9_single_timer_after_start (imgs : List String) (c : Bool) (r : Nat → Nat)
    (ops : List SlideOp) (h : ∀ op ∈ ops, op.isStart = false) :
    (applyOps ops (Slideshow.start c r (Slideshow.initState imgs))).live.length ≤ 1 := by
  have hinv0 : TimerInv (Slideshow.start c r (Slideshow.initState imgs)) :=
    timerInv_start_of_clean c r _ rfl rfl rfl
  have hfin := timerInv_applyOps ops _ h hinv0
  rw [hfin.1]
  cases (applyOps ops (Slideshow.start c r (Slideshow.initState imgs))).timer <;>
    simp [timerList]

/-- Witness for the amended C9 claim on a one-step run. -/
theorem C9_single_timer_after_start_witness :
    (∀ op ∈ [SlideOp.next], SlideOp.isStart op = false)
      ∧ (applyOps [SlideOp.next]
          (Slideshow.start true rzero (Slideshow.initState ["a.jpg"]))).live.length ≤ 1 := by
  have hno : ∀ op ∈ [SlideOp.next], SlideOp.isStart op = false := by
    intro op hop
    rcases List.mem_singleton.mp hop with rfl
    rfl
  exact ⟨hno, C9_single_timer_after_start ["a.jpg"] true rzero [SlideOp.next] hno⟩

/-- The claim id C9 states no reachable state ever has two outstanding
schedules for any sequence of the five operations.  A second press of
start creates a second schedule without cancelling the first. -/
theorem C9_double_start_two_timers :
    (applyOps [SlideOp.start true rzero, SlideOp.start true rzero]
        (Slideshow.initState ["a.jpg"])).live.length = 2
      ∧ ¬ ((applyOps [SlideOp.start true rzero, SlideOp.start true rzero]
          (Slideshow.initState ["a.jpg"])).live.length ≤ 1) := by
  refine ⟨by decide, by decide⟩

/- ===================== canonical list frame claim ===================== -/

theorem updateDisplayOrder_images (r : Nat → Nat) (s : SlideState) :
    (Slideshow.updateDisplayOrder r s).images = s.images := by
  unfold Slideshow.updateDisplayOrder
  split <;> rfl

theorem showImage_images (idx : Int) (s : SlideState) :
    (Slideshow.showImage idx s).images = s.images := by
  unfold Slideshow.showImage
  split <;> rfl

/-- Claim C10: recomputing the display order operates on a fresh copy,
so the canonical list field is untouched by updateDisplayOrder,
toggleShuffle and start. -/
theorem C10_images_never_mutated (s : SlideState) (r : Nat → Nat) (c : Bool) :
    (Slideshow.updateDisplayOrder r s).images = s.images
      ∧ (Slideshow.toggleShuffle r s).images = s.images
      ∧ (Slideshow.start c r s).images = s.images := by
  refine ⟨updateDisplayOrder_images r s, ?_, ?_⟩
  · unfold Slideshow.toggleShuffle
    rw [show (∀ t : SlideState, ∀ v : Nat, ({ t with currentIndex := v } : SlideState).images
      = t.images) from fun _ _ => rfl]
    exact updateDisplayOrder_images r _
  · unfold Slideshow.start Slideshow.startTimer
    rw [show (∀ t : SlideState, ({ t with
          timer := some t.nextTimerId
          live := t.live ++ [t.nextTimerId]
          nextTimerId := t.nextTimerId + 1 } : SlideState).images = t.images)
      from fun _ => rfl]
    rw [showImage_images, updateDisplayOrder_images]
